import Mathlib

/-!
Verification of the Swiftlet QUIC connection manager and audio output loop.

This file shallowly embeds the two cores of the Swiftlet repository:
the file `src/src/network/rtc/endpoint/connection.rs` — the per-connection
QUIC manager (`Connection`): the reliable main-stream send queue and its
drain loop, the read-target receive machinery, timeout servicing and
keepalive — and the file `src/audio/src/windows/wasapi.rs` — the WASAPI
output event loop (`run_output_event_loop` / `wait_for_next_output`).

The quiche protocol engine is external to the repository; its responses to
the manager's calls (`stream_send`, `stream_recv`, `stream_readable_next`,
`is_closed`, `is_draining`, `is_established`, `timeout_instant`, `send`,
`close`, `send_ack_eliciting`) are modelled as oracles supplied per call.
The engine's API guarantees that `stream_send` writes at most the length of
the slice it is given and that `stream_recv` fills at most the length of the
output slice are baked in by clamping the oracle's byte counts.  Bytes,
stream ids, error codes and monotonic instants are modelled as `Nat`;
`Instant.now()` readings are oracle inputs.  `Vec<u8>` is modelled as a list
of bytes together with its capacity.
-/

deriving instance DecidableEq for Except

namespace Swiftlet

/-- Constant `MAIN_STREAM_ID` from connection.rs. -/
def MAIN_STREAM_ID : Nat := 0

/-- Constant `quiche::MAX_CONN_ID_LEN` (20 bytes), used by `Connection::new`. -/
def MAX_CONN_ID_LEN : Nat := 20

/-- Error `quiche::Error::Done` modelled as error code 0 (other engine errors are
nonzero codes). -/
def DONE : Nat := 0

/-- Model of Rust `Vec<u8>`: the element list plus the allocation capacity.
Invariant in reachable states: `data.length ≤ cap`. -/
structure RVec where
  data : List Nat
  cap : Nat
deriving Repr, DecidableEq

/-- Rust `Vec::with_capacity(n)`: empty vector with capacity `n`. -/
def RVec.withCapacity (n : Nat) : RVec := ⟨[], n⟩

/-- Rust `vec.resize(n, 0)`: truncate or zero-extend the data to length `n`;
capacity grows to at least `n` when extension requires reallocation. -/
def RVec.resizeZero (v : RVec) (n : Nat) : RVec :=
  ⟨v.data.take n ++ List.replicate (n - v.data.length) 0, max v.cap n⟩

/-- Rust `vec.shrink_to(m)`: shrink the CAPACITY with lower bound `m`; the
capacity remains at least as large as both the length and `m`, and the
element data is untouched. -/
def RVec.shrinkTo (v : RVec) (m : Nat) : RVec :=
  ⟨v.data, max v.data.length (min v.cap m)⟩

/-- Struct `SendBuffer` (fields `data`, `sent`) from connection.rs. -/
structure SendBuffer where
  data : List Nat
  sent : Nat
deriving Repr, DecidableEq

/-- The unsent suffix `data[sent..]` of a send buffer. -/
def SendBuffer.remainingBytes (b : SendBuffer) : List Nat := b.data.drop b.sent

/-- One engine response to `connection.stream_send(MAIN_STREAM_ID, slice, false)`:
`accepted n` for `Ok(n)` (the engine never accepts more than the slice
length, enforced by clamping at use sites), `done` for `Err(Error::Done)`
(would-block), `fatal e` for any other error (`e ≠ DONE`). -/
inductive StreamSendRes where
  | accepted (n : Nat)
  | done
  | fatal (e : Nat)
deriving Repr, DecidableEq

/-- Outcome of one run of the drain loop `stream_reliable_send_next`:
the returned `Result<usize, Error>`, the send queue afterwards, and the
bytes the engine accepted onto the main stream (in order). -/
structure DrainOut where
  result : Except Nat Nat
  queue : List SendBuffer
  emitted : List Nat
deriving Repr, DecidableEq

/-- Method `Connection::stream_reliable_send_next` (connection.rs lines 306–335).
The loop takes the front buffer, calls `stream_send` on `data[sent..]`
(one oracle entry per engine call):
on `Ok(n)` it adds `n` to the running total and to `sent`; if the buffer is
now fully sent it pops it and loops, otherwise it RETURNS the total;
on `Err(Done)` it returns the total; on any other error it returns the
error (the queue keeping its current state); an empty queue returns the
total.  `total` is the running `total_bytes_sent` accumulator (0 at entry).
An exhausted oracle models the bound of the observation window and returns
like an empty queue without consulting the engine further. -/
def streamReliableSendNext : List StreamSendRes → Nat → List SendBuffer → DrainOut
  | _, total, [] => ⟨.ok total, [], []⟩
  | [], total, b :: q => ⟨.ok total, b :: q, []⟩
  | .accepted n :: rest, total, b :: q =>
    let m := min n (b.data.length - b.sent)
    let taken := (b.data.drop b.sent).take m
    if b.data.length ≤ b.sent + m then
      let out := streamReliableSendNext rest (total + m) q
      ⟨out.result, out.queue, taken ++ out.emitted⟩
    else
      ⟨.ok (total + m), ⟨b.data, b.sent + m⟩ :: q, taken⟩
  | .done :: _, total, b :: q => ⟨.ok total, b :: q, []⟩
  | .fatal e :: _, _, b :: q => ⟨.error e, b :: q, []⟩

/-- Modelled from the spec: the drain loop as the specification sentence
describes it, "on partial acceptance, `sent` advances; the loop continues" —
i.e. after a partial acceptance the loop calls `stream_send` again instead
of returning.  All other cases are as in `streamReliableSendNext`.  Used to
compare the spec's words with the code for claim C1. -/
def streamReliableSendNextSpec : List StreamSendRes → Nat → List SendBuffer → DrainOut
  | _, total, [] => ⟨.ok total, [], []⟩
  | [], total, b :: q => ⟨.ok total, b :: q, []⟩
  | .accepted n :: rest, total, b :: q =>
    let m := min n (b.data.length - b.sent)
    let taken := (b.data.drop b.sent).take m
    if b.data.length ≤ b.sent + m then
      let out := streamReliableSendNextSpec rest (total + m) q
      ⟨out.result, out.queue, taken ++ out.emitted⟩
    else
      let out := streamReliableSendNextSpec rest (total + m) (⟨b.data, b.sent + m⟩ :: q)
      ⟨out.result, out.queue, taken ++ out.emitted⟩
  | .done :: _, total, b :: q => ⟨.ok total, b :: q, []⟩
  | .fatal e :: _, _, b :: q => ⟨.error e, b :: q, []⟩

/-- All unsent bytes held in the queue, front to back. -/
def unsentBytes (q : List SendBuffer) : List Nat :=
  q.foldr (fun b acc => b.remainingBytes ++ acc) []

/-- The manager state of `Connection` (connection.rs lines 50–62).  The
quiche engine and the socket-address bookkeeping (`recv_info`,
`current_scid`) are external to the manager's own fields except where a
claim needs them; the SCID actually passed to the engine is kept as
`currentScid`.  Instants are `Nat` ticks. -/
structure Conn where
  id : Nat
  currentScid : List Nat
  lastSendInstant : Nat
  nextTimeoutInstant : Option Nat
  establishedOnce : Bool
  recvCaptured : Nat
  recvTarget : Nat
  recvData : RVec
  reliableSendQueue : List SendBuffer
deriving Repr, DecidableEq

/-- Enum `RecvResult` from connection.rs. -/
inductive RecvResult where
  | Closed (id : Nat)
  | Draining (id : Nat)
  | Established (id : Nat)
  | Nothing
  | ReliableReadTarget (id : Nat)
  | Closing (id : Nat)
  | StreamReadable (p : Nat × Nat)
deriving Repr, DecidableEq

/-- Enum `TimeoutResult` from connection.rs. -/
inductive TimeoutResult where
  | Nothing (t : Option Nat)
  | Closed (id : Nat)
  | Draining (id : Nat)
  | Happened
deriving Repr, DecidableEq

/-- The slice expression `&scid_data[..quiche::MAX_CONN_ID_LEN]` in
`Connection::new` (connection.rs line 179).  Rust slicing panics when the
slice is shorter than the requested range; the panic is modelled as
`none`. -/
def scidFromSlice (scidData : List Nat) : Option (List Nat) :=
  if MAX_CONN_ID_LEN ≤ scidData.length then some (scidData.take MAX_CONN_ID_LEN)
  else none

/-- Factory `Connection::new` (connection.rs lines 163–239), restricted to the
manager-state initialization shared by the client and server factories
(the two branches build identical `Connection` records; engine construction
errors from `quiche::connect`/`quiche::accept` are orthogonal to the
modelled state and not modelled).  `none` models the slicing panic on a
short SCID slice.  `now` is the `Instant::now()` reading. -/
def Connection.new (id : Nat) (scidData : List Nat) (recvDataCapacity : Nat)
    (now : Nat) : Option Conn :=
  match scidFromSlice scidData with
  | none => none
  | some scid =>
    some { id := id
           currentScid := scid
           lastSendInstant := now
           nextTimeoutInstant := none
           establishedOnce := false
           recvCaptured := 0
           recvTarget := 0
           recvData := (RVec.withCapacity recvDataCapacity).resizeZero recvDataCapacity
           reliableSendQueue := [] }

/-- Method `Connection::stream_reliable_next_read_target` (connection.rs
lines 431–437): clamp the requested target to `recv_data.len()` and reset
`recv_captured` to 0. -/
def streamReliableNextReadTarget (c : Conn) (nextTarget : Nat) : Conn :=
  let t := if c.recvData.data.length < nextTarget then c.recvData.data.length else nextTarget
  { c with recvCaptured := 0, recvTarget := t }

/-- One engine response to `connection.stream_recv(MAIN_STREAM_ID, slice)`:
`okRes bytes fin` for `Ok((n, fin))` where the engine wrote a prefix of
`bytes` (clamped to the slice length at use sites), `done` for
`Err(Error::Done)`, `fatal e` for any other error. -/
inductive StreamRecvRes where
  | okRes (bytes : List Nat) (fin : Bool)
  | done
  | fatal (e : Nat)
deriving Repr, DecidableEq

/-- Overwrite `data[pos .. pos + bytes.length]` with `bytes` (the effect of
the engine filling the slice `&mut recv_data[pos..]` prefix).  In reachable
states `pos + bytes.length ≤ data.length`. -/
def writeAt (data : List Nat) (pos : Nat) (bytes : List Nat) : List Nat :=
  data.take pos ++ bytes ++ data.drop (pos + bytes.length)

/-- The engine-dependent inputs of one `recv_data_process` call. -/
structure RecvOracle where
  recvRes : Except Nat Nat
  isClosed : Bool
  isDraining : Bool
  isEstablished : Bool
  drainOracle : List StreamSendRes
  readableNext : Option Nat
  streamRecvRes : StreamRecvRes
  closeRes : Except Nat Unit
deriving Repr, DecidableEq

/-- Outcome of a `recv_data_process` or `stream_reliable_read` call:
result, post state, and the application-close calls issued to the engine
(`(error_code, reason)` pairs, in order). -/
structure ProcOut (α : Type) where
  result : Except Nat α
  conn : Conn
  closeCalls : List (Nat × String)
deriving Repr, DecidableEq

/-- The shared "pull into `recv_data[recv_captured..recv_target]` and mark
progress" step: clamps the engine's byte count to the slice length and
advances `recv_captured`. -/
def pullMainStream (c : Conn) (bytes : List Nat) : Conn :=
  let m := min bytes.length (c.recvTarget - c.recvCaptured)
  { c with
    recvData := ⟨writeAt c.recvData.data c.recvCaptured (bytes.take m), c.recvData.cap⟩
    recvCaptured := c.recvCaptured + m }

/-- Method `Connection::recv_data_process` (connection.rs lines 337–391).  Feeds
the datagram to the engine (`recvRes`), then dispatches: pre-established
states latch `established_once` or report lifecycle results; established
connections report `Closed`/`Draining`, else drive the reliable drain once
(`?` propagates its error after the queue has been mutated), then consult
`stream_readable_next`.  If the main stream is readable: with the read
target already met, report `ReliableReadTarget`; otherwise pull into
`recv_data[recv_captured..recv_target]` (any `stream_recv` error,
including `Done`, propagates via `?`), report `ReliableReadTarget` the
moment the target is met, `Nothing` otherwise; on FIN call
`close(false, 1, "Stream0Finished")` (its error propagating via `?`) and
report `Closing`.  Other readable streams are surfaced as
`StreamReadable`. -/
def recvDataProcess (c : Conn) (o : RecvOracle) : ProcOut RecvResult :=
  match o.recvRes with
  | .error e => ⟨.error e, c, []⟩
  | .ok _bytesProcessed =>
    if c.establishedOnce then
      if o.isClosed then ⟨.ok (.Closed c.id), c, []⟩
      else if o.isDraining then ⟨.ok (.Draining c.id), c, []⟩
      else
        let dout := streamReliableSendNext o.drainOracle 0 c.reliableSendQueue
        let c1 := { c with reliableSendQueue := dout.queue }
        match dout.result with
        | .error e => ⟨.error e, c1, []⟩
        | .ok _ =>
          match o.readableNext with
          | none => ⟨.ok .Nothing, c1, []⟩
          | some sid =>
            if sid = MAIN_STREAM_ID then
              if c1.recvTarget ≤ c1.recvCaptured then
                ⟨.ok (.ReliableReadTarget c1.id), c1, []⟩
              else
                match o.streamRecvRes with
                | .okRes bytes fin =>
                  if !fin then
                    let c2 := pullMainStream c1 bytes
                    if c2.recvTarget ≤ c2.recvCaptured then
                      ⟨.ok (.ReliableReadTarget c2.id), c2, []⟩
                    else ⟨.ok .Nothing, c2, []⟩
                  else
                    match o.closeRes with
                    | .ok _ => ⟨.ok (.Closing c1.id), c1, [(1, "Stream0Finished")]⟩
                    | .error e => ⟨.error e, c1, [(1, "Stream0Finished")]⟩
                | .done => ⟨.error DONE, c1, []⟩
                | .fatal e => ⟨.error e, c1, []⟩
            else ⟨.ok (.StreamReadable (c1.id, sid)), c1, []⟩
    else if o.isEstablished then
      ⟨.ok (.Established c.id), { c with establishedOnce := true }, []⟩
    else if o.isClosed then ⟨.ok (.Closed c.id), c, []⟩
    else if o.isDraining then ⟨.ok (.Draining c.id), c, []⟩
    else ⟨.ok .Nothing, c, []⟩

/-- Method `Connection::stream_reliable_send` (connection.rs lines 421–428):
wrap the payload in a fresh `SendBuffer`, push it on the back of the queue
and run the drain loop once. -/
def streamReliableSend (c : Conn) (dataVec : List Nat)
    (oracle : List StreamSendRes) : ProcOut Nat :=
  let c1 := { c with reliableSendQueue := c.reliableSendQueue ++ [SendBuffer.mk dataVec 0] }
  let dout := streamReliableSendNext oracle 0 c1.reliableSendQueue
  ⟨dout.result, { c1 with reliableSendQueue := dout.queue }, []⟩

/-- Outcome of `stream_reliable_read`: the `Result<(Option<usize>,
Option<Vec<u8>>), Error>`, the post state, the close calls issued, and the
caller's slice contents after the call. -/
structure ReadOut where
  result : Except Nat (Option Nat × Option RVec)
  conn : Conn
  closeCalls : List (Nat × String)
  readCopy : List Nat
deriving Repr, DecidableEq

/-- The "serve the met read target" step shared by both branches of
`stream_reliable_read` (connection.rs lines 444–454 and 464–477): if the
caller's slice holds at least `recv_target` bytes, copy
`recv_data[..recv_target]` into it and return `(Some(recv_target), None)`;
otherwise swap `recv_data` for `Vec::with_capacity(capacity)` resized to
`capacity` with zeros, call `shrink_to(recv_target)` on the detached vector
and return `(None, Some(vec))`. -/
def serveReadTarget (c : Conn) (readCopy : List Nat) : ReadOut :=
  if c.recvTarget ≤ readCopy.length then
    ⟨.ok (some c.recvTarget, none), c, [],
      c.recvData.data.take c.recvTarget ++ readCopy.drop c.recvTarget⟩
  else
    let capacity := c.recvData.cap
    let vecReturn := c.recvData.shrinkTo c.recvTarget
    ⟨.ok (none, some vecReturn),
      { c with recvData := (RVec.withCapacity capacity).resizeZero capacity },
      [], readCopy⟩

/-- Method `Connection::stream_reliable_read` (connection.rs lines 439–493).
With the read target met, serve it from `recv_data` (copy-out or detach).
Otherwise pull from the engine: on `Ok((n, false))` advance
`recv_captured` and serve the target if now met, else return
`(None, None)`; on `Ok((n, true))` (FIN) call
`close(false, 1, "Stream0Finished")` (error propagating) and return
`(None, None)`; on `Err(Done)` return `(None, None)`; other errors
surface. -/
def streamReliableRead (c : Conn) (readCopy : List Nat)
    (recvRes : StreamRecvRes) (closeRes : Except Nat Unit) : ReadOut :=
  if c.recvTarget ≤ c.recvCaptured then
    serveReadTarget c readCopy
  else
    match recvRes with
    | .okRes bytes fin =>
      if !fin then
        let c2 := pullMainStream c bytes
        if c2.recvTarget ≤ c2.recvCaptured then
          serveReadTarget c2 readCopy
        else ⟨.ok (none, none), c2, [], readCopy⟩
      else
        match closeRes with
        | .ok _ => ⟨.ok (none, none), c, [(1, "Stream0Finished")], readCopy⟩
        | .error e => ⟨.error e, c, [(1, "Stream0Finished")], readCopy⟩
    | .done => ⟨.ok (none, none), c, [], readCopy⟩
    | .fatal e => ⟨.error e, c, [], readCopy⟩

/-- One engine response to `connection.send(packet_data)` inside
`get_next_send_packet`: a produced packet with its length, destination and
pacing instant `send_info.at`, `doneRes` for `Err(Error::Done)` carrying
the engine's refreshed `timeout_instant()`, or a fatal error. -/
inductive EngineSendRes where
  | packet (len : Nat) (dest : Nat) (sendAt : Nat)
  | doneRes (newTimeout : Option Nat)
  | fatal (e : Nat)
deriving Repr, DecidableEq

/-- Method `Connection::get_next_send_packet` (connection.rs lines 251–274).
On a produced packet, `last_send_instant` advances to `send_info.at` when
that is strictly greater (never backward); on `Err(Done)`,
`next_timeout_instant` is refreshed from the engine and `None` is
returned; other errors surface with the state untouched. -/
def getNextSendPacket (c : Conn) (o : EngineSendRes) :
    Except Nat (Option (Nat × Nat × Nat)) × Conn :=
  match o with
  | .packet len dest sendAt =>
    let c1 := if c.lastSendInstant < sendAt then { c with lastSendInstant := sendAt } else c
    (.ok (some (len, dest, sendAt)), c1)
  | .doneRes newTimeout => (.ok none, { c with nextTimeoutInstant := newTimeout })
  | .fatal e => (.error e, c)

/-- Engine-dependent inputs of one `handle_possible_timeout` call: the
`Instant::now()` reading, the re-read `timeout_instant()` and the
post-`on_timeout` lifecycle predicates. -/
structure TimeoutOracle where
  now : Nat
  engineTimeoutInstant : Option Nat
  isClosed : Bool
  isDraining : Bool
deriving Repr, DecidableEq

/-- Outcome of `handle_possible_timeout`: the result, the post state, and
whether `connection.on_timeout()` was invoked. -/
structure TimeoutOut where
  result : TimeoutResult
  conn : Conn
  onTimeoutInvoked : Bool
deriving Repr, DecidableEq

/-- Method `Connection::handle_possible_timeout` (connection.rs lines 276–304).
With no cached deadline, or a cached deadline still in the future, returns
`Nothing` with the stored deadline and does not touch the engine.  With an
elapsed cached deadline, re-reads the engine's authoritative deadline into
`next_timeout_instant`; only when that re-read exists and has also elapsed
is `on_timeout()` invoked, after which the lifecycle is reported;
otherwise `Nothing` carries the refreshed deadline. -/
def handlePossibleTimeout (c : Conn) (o : TimeoutOracle) : TimeoutOut :=
  match c.nextTimeoutInstant with
  | none => ⟨.Nothing none, c, false⟩
  | some timeoutInstant =>
    if timeoutInstant ≤ o.now then
      let c1 := { c with nextTimeoutInstant := o.engineTimeoutInstant }
      match o.engineTimeoutInstant with
      | some timeoutVerify =>
        if timeoutVerify ≤ o.now then
          if o.isClosed then ⟨.Closed c.id, c1, true⟩
          else if o.isDraining then ⟨.Draining c.id, c1, true⟩
          else ⟨.Happened, c1, true⟩
        else ⟨.Nothing c1.nextTimeoutInstant, c1, false⟩
      | none => ⟨.Nothing none, c1, false⟩
    else ⟨.Nothing c.nextTimeoutInstant, c, false⟩

/-- Method `Connection::send_ping_if_neccessary` (connection.rs lines 399–406):
when `last_send_instant + duration ≤ now`, call `send_ack_eliciting()`
(whose error propagates) and return `true`; otherwise return `false`.
No manager field is touched either way. -/
def sendPingIfNeccessary (c : Conn) (duration : Nat) (now : Nat)
    (ackRes : Except Nat Unit) : Except Nat Bool × Conn :=
  if c.lastSendInstant + duration ≤ now then
    match ackRes with
    | .ok _ => (.ok true, c)
    | .error e => (.error e, c)
  else (.ok false, c)

/-! Section: WASAPI output event loop (src/audio/src/windows/wasapi.rs). -/

/-- Enum `FoundationError` outcomes produced by `wait_for_next_output`. -/
inductive FoundationError where
  | WaitFailed
  | WaitAbandoned
  | Uncertain
  | GetBuffer
deriving Repr, DecidableEq

/-- The OS-dependent outcome of one `WaitForSingleObject` call plus, when
signaled, whether the subsequent `GetBuffer(frame_period)` succeeds. -/
inductive WaitSignal where
  | objectZero (getBufferOk : Bool)
  | timeout
  | failed
  | abandoned
  | unknown
deriving Repr, DecidableEq

/-- Method `Device::wait_for_next_output` (wasapi.rs lines 329–360).  A signaled
wait acquires a buffer of `frame_period` frames from the render client and
yields a writable slice of exactly `frame_period * channels` floats
(modelled by its length); a timeout yields `Ok(None)`; wait failure,
abandonment, an unknown wait result, or a `GetBuffer` failure yield the
corresponding error. -/
def waitForNextOutput (framePeriod channels : Nat) (w : WaitSignal) :
    Except FoundationError (Option Nat) :=
  match w with
  | .objectZero true => .ok (some (framePeriod * channels))
  | .objectZero false => .error .GetBuffer
  | .timeout => .ok none
  | .failed => .error .WaitFailed
  | .abandoned => .error .WaitAbandoned
  | .unknown => .error .Uncertain

/-- The environment-dependent inputs of one event-loop iteration: the wait
outcome, the callback's quit decision (consulted only when a buffer was
delivered) and the `ReleaseBuffer` success (likewise). -/
structure LoopIter where
  wait : WaitSignal
  quit : Bool
  releaseOk : Bool
deriving Repr, DecidableEq

/-- The `loop { ... }` body of `Device::run_output_event_loop` (wasapi.rs
lines 375–395), iterated over a finite window of environment inputs.
`some r` means the function returned `r` within the window; `none` means
the loop was still running when the window ended.  On a delivered buffer
the callback runs, the buffer is released — a release failure returns
`false` immediately — and a quit return breaks out of the loop, after
which `stop()`'s boolean (`stopResult`) is returned.  Timeouts and wait
errors (which are only printed) leave the loop running. -/
def runOutputEventLoop (framePeriod channels : Nat) (stopResult : Bool) :
    List LoopIter → Option Bool
  | [] => none
  | it :: rest =>
    match waitForNextOutput framePeriod channels it.wait with
    | .ok (some _len) =>
      if it.releaseOk = false then some false
      else if it.quit then some stopResult
      else runOutputEventLoop framePeriod channels stopResult rest
    | .ok none => runOutputEventLoop framePeriod channels stopResult rest
    | .error _e => runOutputEventLoop framePeriod channels stopResult rest

/-- Method `Device::run_output_event_loop` (wasapi.rs lines 367–396) including the
pre-loop guards: a capture device returns `false`, a failed `start()`
returns `false`, then the event loop runs. -/
def runOutputEventLoopFull (isCapture startOk : Bool) (framePeriod channels : Nat)
    (stopResult : Bool) (iters : List LoopIter) : Option Bool :=
  if isCapture then some false
  else if !startOk then some false
  else runOutputEventLoop framePeriod channels stopResult iters

/-! Section: sample states used by concrete witnesses and counterexamples. -/

/-- An established connection whose read target (3) is already met and
whose send queue is empty. -/
def readyConn : Conn :=
  { id := 7
    currentScid := List.replicate MAX_CONN_ID_LEN 1
    lastSendInstant := 0
    nextTimeoutInstant := none
    establishedOnce := true
    recvCaptured := 3
    recvTarget := 3
    recvData := ⟨[4, 5, 6, 0], 4⟩
    reliableSendQueue := [] }

/-- An oracle for `recv_data_process`: datagram accepted, connection alive,
nothing to drain, and the main stream readable. -/
def mainReadableOracle : RecvOracle :=
  { recvRes := .ok 100
    isClosed := false
    isDraining := false
    isEstablished := true
    drainOracle := []
    readableNext := some MAIN_STREAM_ID
    streamRecvRes := .done
    closeRes := .ok () }

/-- An established connection whose read target (2) is met with the
4-byte receive buffer holding `[5, 6, 7, 8]`, for exercising the detach
path of `stream_reliable_read`. -/
def detachConn : Conn :=
  { id := 7
    currentScid := List.replicate MAX_CONN_ID_LEN 1
    lastSendInstant := 0
    nextTimeoutInstant := none
    establishedOnce := true
    recvCaptured := 2
    recvTarget := 2
    recvData := ⟨[5, 6, 7, 8], 4⟩
    reliableSendQueue := [] }

/-! Section: claim theorems. -/

/-- Claim C9, counterexample.  `Connection::new` is not total in the SCID
slice: with an empty slice (shorter than `quiche::MAX_CONN_ID_LEN`), the
slice expression `&scid_data[..quiche::MAX_CONN_ID_LEN]` panics (modelled
as `none`), contradicting "for every slice, including one shorter than the
engine's maximum connection-ID length, the constructor does not panic". -/
theorem connection_new_empty_scid_panics : Connection.new 1 [] 16 0 = none := by
  decide

/-- Claim C9, amended.  `Connection::new` is total only in SCID slices of
length at least `MAX_CONN_ID_LEN`; for those it does not panic, the SCID
actually used is the slice truncated to `MAX_CONN_ID_LEN` bytes, and the
receive buffer is preallocated to `recvDataCapacity` zeroed bytes.  A
shorter slice makes the constructor panic. -/
theorem connection_new_long_scid_total (id cap now : Nat) (scidData : List Nat)
    (h : MAX_CONN_ID_LEN ≤ scidData.length) :
    Connection.new id scidData cap now =
      some { id := id
             currentScid := scidData.take MAX_CONN_ID_LEN
             lastSendInstant := now
             nextTimeoutInstant := none
             establishedOnce := false
             recvCaptured := 0
             recvTarget := 0
             recvData := ⟨List.replicate cap 0, cap⟩
             reliableSendQueue := [] } := by
  simp [Connection.new, scidFromSlice, h, RVec.withCapacity, RVec.resizeZero]

/-- Claim C9, witness for `connection_new_long_scid_total` at a 20-byte
SCID slice. -/
theorem connection_new_long_scid_total_witness :
    Connection.new 3 (List.replicate 20 9) 4 5 =
      some { id := 3
             currentScid := List.replicate 20 9
             lastSendInstant := 5
             nextTimeoutInstant := none
             establishedOnce := false
             recvCaptured := 0
             recvTarget := 0
             recvData := ⟨List.replicate 4 0, 4⟩
             reliableSendQueue := [] } := by
  have h := connection_new_long_scid_total 3 4 5 (List.replicate 20 9) (by decide)
  simpa using h

/-- Claim C7.  `handle_possible_timeout` invokes the engine's `on_timeout`
exactly when the cached `next_timeout_instant` exists and has elapsed AND
the re-read authoritative engine deadline exists and has also elapsed;
in every other case `on_timeout` is not invoked and the call returns
`Nothing` carrying the manager's (possibly refreshed) deadline: the
engine's re-read deadline when the cached one had elapsed, the unchanged
cached deadline otherwise. -/
theorem handle_possible_timeout_double_check (c : Conn) (o : TimeoutOracle) :
    ((handlePossibleTimeout c o).onTimeoutInvoked = true ↔
      (∃ t, c.nextTimeoutInstant = some t ∧ t ≤ o.now) ∧
      (∃ t, o.engineTimeoutInstant = some t ∧ t ≤ o.now)) ∧
    ((handlePossibleTimeout c o).onTimeoutInvoked = false →
      (handlePossibleTimeout c o).result =
        .Nothing (handlePossibleTimeout c o).conn.nextTimeoutInstant ∧
      (handlePossibleTimeout c o).conn.nextTimeoutInstant =
        (match c.nextTimeoutInstant with
         | none => none
         | some t => if t ≤ o.now then o.engineTimeoutInstant else some t)) := by
  unfold handlePossibleTimeout
  rcases hc : c.nextTimeoutInstant with _ | t
  · simp [hc]
  · by_cases h1 : t ≤ o.now
    · rcases he : o.engineTimeoutInstant with _ | t2
      · simp [h1, he]
      · by_cases h2 : t2 ≤ o.now
        · by_cases h3 : o.isClosed <;> by_cases h4 : o.isDraining <;>
            simp [h1, he, h2, h3, h4]
        · simp [h1, he, h2]
    · simp [h1, hc]

/-- Claim C7, witness for `handle_possible_timeout_double_check`: with
cached deadline 3, re-read deadline 4 and now = 5, both checks pass and
`on_timeout` is invoked. -/
theorem handle_possible_timeout_double_check_witness :
    (handlePossibleTimeout { readyConn with nextTimeoutInstant := some 3 }
        ⟨5, some 4, false, false⟩).onTimeoutInvoked = true := by
  exact (handle_possible_timeout_double_check
      { readyConn with nextTimeoutInstant := some 3 } ⟨5, some 4, false, false⟩).1.mpr
    ⟨⟨3, rfl, by decide⟩, ⟨4, rfl, by decide⟩⟩

/-- Claim C10.  `send_ping_if_neccessary` modifies no connection-manager
field (whatever the engine's answer), and it emits the ACK-eliciting frame
exactly when `last_send_instant + duration ≤ now`.  `last_send_instant` is
never advanced by `send_ping_if_neccessary`, `recv_data_process`,
`stream_reliable_read`, `stream_reliable_send`,
`stream_reliable_next_read_target` or `handle_possible_timeout`, and
`get_next_send_packet` moves it only forward.  Consequently, once
`now ≥ last_send_instant + duration`, a ping call at any later reading
`now2` still emits. -/
theorem send_ping_frame_effect (c : Conn) (duration now now2 : Nat)
    (ackRes : Except Nat Unit) (o : RecvOracle) (rc : List Nat)
    (rr : StreamRecvRes) (cr : Except Nat Unit) (v : List Nat)
    (so : List StreamSendRes) (n : Nat) (tmo : TimeoutOracle)
    (es : EngineSendRes) :
    (sendPingIfNeccessary c duration now ackRes).2 = c ∧
    (c.lastSendInstant + duration ≤ now →
      (sendPingIfNeccessary c duration now (.ok ())).1 = .ok true) ∧
    (¬ c.lastSendInstant + duration ≤ now →
      (sendPingIfNeccessary c duration now ackRes).1 = .ok false) ∧
    (recvDataProcess c o).conn.lastSendInstant = c.lastSendInstant ∧
    (streamReliableRead c rc rr cr).conn.lastSendInstant = c.lastSendInstant ∧
    (streamReliableSend c v so).conn.lastSendInstant = c.lastSendInstant ∧
    (streamReliableNextReadTarget c n).lastSendInstant = c.lastSendInstant ∧
    (handlePossibleTimeout c tmo).conn.lastSendInstant = c.lastSendInstant ∧
    c.lastSendInstant ≤ ((getNextSendPacket c es).2).lastSendInstant ∧
    (c.lastSendInstant + duration ≤ now → now ≤ now2 →
      (sendPingIfNeccessary ((sendPingIfNeccessary c duration now (.ok ())).2)
          duration now2 (.ok ())).1 = .ok true) := by
  refine ⟨?_, ?_, ?_, ?_, ?_, ?_, ?_, ?_, ?_, ?_⟩
  · unfold sendPingIfNeccessary
    split
    · cases ackRes <;> rfl
    · rfl
  · intro h; simp [sendPingIfNeccessary, h]
  · intro h; simp [sendPingIfNeccessary, h]
  · simp only [recvDataProcess, pullMainStream]
    repeat' split <;> try rfl
  · simp only [streamReliableRead, serveReadTarget, pullMainStream]
    repeat' split <;> try rfl
  · rfl
  · rfl
  · unfold handlePossibleTimeout
    repeat' split <;> try rfl
  · unfold getNextSendPacket
    cases es with
    | packet len dest sendAt =>
      simp only
      split
      · next h => simp; omega
      · simp
    | doneRes t => rfl
    | fatal e => rfl
  · intro h h2
    have hconn : (sendPingIfNeccessary c duration now (.ok ())).2 = c := by
      unfold sendPingIfNeccessary; split <;> rfl
    rw [hconn]
    unfold sendPingIfNeccessary
    rw [if_pos (h.trans h2)]

/-- Claim C10, witness for `send_ping_frame_effect` at a concrete state:
`last_send_instant = 0`, `duration = 2`, `now = 2`, `now2 = 10`. -/
theorem send_ping_frame_effect_witness :
    (sendPingIfNeccessary readyConn 2 2 (.ok ())).1 = .ok true ∧
    (sendPingIfNeccessary (sendPingIfNeccessary readyConn 2 2 (.ok ())).2
        2 10 (.ok ())).1 = .ok true := by
  have h := send_ping_frame_effect readyConn 2 2 10 (.ok ()) mainReadableOracle []
    .done (.ok ()) [] [] 0 ⟨0, none, false, false⟩ (.doneRes none)
  exact ⟨h.2.1 (by decide), h.2.2.2.2.2.2.2.2.2 (by decide) (by decide)⟩

/-- Claim C8, counterexample.  The output event loop does not terminate only
via the callback's quit return: with a signaled wait, a successful buffer
acquisition, a callback that does NOT ask to quit, and a failing
`ReleaseBuffer`, the loop returns `false` immediately — even when `stop()`
would return `true` — so its return value is not the boolean result of
`stop()` on that path. -/
theorem run_output_event_loop_release_fail_cex :
    runOutputEventLoop 480 2 true [⟨WaitSignal.objectZero true, false, false⟩] =
      some false ∧
    (⟨WaitSignal.objectZero true, false, false⟩ : LoopIter).quit = false ∧
    some false ≠ some true := by decide

/-- Claim C8, amended.  In every iteration of the audio output event loop:
a signaled wait with a successful buffer acquisition yields the callback a
writable slice of exactly `frame_period × channels` floats; a timeout, a
wait error (failed / abandoned / unknown) or a buffer-acquisition error
never terminates the loop (the failed iteration consumes no buffer); the
loop terminates either via the callback's quit return — returning the
boolean result of `stop()` — or via a `ReleaseBuffer` failure, returning
`false`; consequently every terminating run returns either `stop()`'s
result or `false`. -/
theorem run_output_event_loop_behavior (fp ch : Nat) (s : Bool)
    (rest : List LoopIter) (q r : Bool) :
    waitForNextOutput fp ch (.objectZero true) = .ok (some (fp * ch)) ∧
    runOutputEventLoop fp ch s (⟨.timeout, q, r⟩ :: rest) =
      runOutputEventLoop fp ch s rest ∧
    runOutputEventLoop fp ch s (⟨.failed, q, r⟩ :: rest) =
      runOutputEventLoop fp ch s rest ∧
    runOutputEventLoop fp ch s (⟨.abandoned, q, r⟩ :: rest) =
      runOutputEventLoop fp ch s rest ∧
    runOutputEventLoop fp ch s (⟨.unknown, q, r⟩ :: rest) =
      runOutputEventLoop fp ch s rest ∧
    runOutputEventLoop fp ch s (⟨.objectZero false, q, r⟩ :: rest) =
      runOutputEventLoop fp ch s rest ∧
    runOutputEventLoop fp ch s (⟨.objectZero true, true, true⟩ :: rest) = some s ∧
    runOutputEventLoop fp ch s (⟨.objectZero true, q, false⟩ :: rest) = some false ∧
    (∀ iters rr, runOutputEventLoop fp ch s iters = some rr → rr = s ∨ rr = false) := by
  refine ⟨rfl, rfl, rfl, rfl, rfl, rfl, rfl, rfl, ?_⟩
  intro iters
  induction iters with
  | nil => intro rr hrr; simp [runOutputEventLoop] at hrr
  | cons it rest2 ih =>
    intro rr hrr
    rcases it with ⟨w, q2, r2⟩
    cases w with
    | objectZero gb =>
      cases gb with
      | true =>
        cases r2 with
        | false =>
          simp [runOutputEventLoop, waitForNextOutput] at hrr
          exact Or.inr hrr
        | true =>
          cases q2 with
          | true =>
            simp [runOutputEventLoop, waitForNextOutput] at hrr
            exact Or.inl hrr.symm
          | false => exact ih rr hrr
      | false => exact ih rr hrr
    | timeout => exact ih rr hrr
    | failed => exact ih rr hrr
    | abandoned => exact ih rr hrr
    | unknown => exact ih rr hrr

/-- Claim C8, witness for `run_output_event_loop_behavior`: a quit after one
timeout returns `stop()`'s result, and the terminating-run characterization
applied to a concrete run. -/
theorem run_output_event_loop_behavior_witness :
    runOutputEventLoop 480 2 true
        [⟨.timeout, false, true⟩, ⟨.objectZero true, true, true⟩] = some true ∧
    (true = true ∨ true = false) := by
  have h := run_output_event_loop_behavior 480 2 true
    [⟨.objectZero true, true, true⟩] false true
  refine ⟨?_, ?_⟩
  · calc runOutputEventLoop 480 2 true
          [⟨.timeout, false, true⟩, ⟨.objectZero true, true, true⟩]
        = runOutputEventLoop 480 2 true [⟨.objectZero true, true, true⟩] := by
          exact (run_output_event_loop_behavior 480 2 true
            [⟨.objectZero true, true, true⟩] false true).2.1
      _ = some true := h.2.2.2.2.2.2.1
  · exact h.2.2.2.2.2.2.2.2 [⟨.objectZero true, true, true⟩] true h.2.2.2.2.2.2.1

/-- Claim C1, counterexample.  The drain loop does NOT continue after a
partial acceptance: with a 2-byte front buffer and an engine that accepts
1 byte on each call, the code's loop (`streamReliableSendNext`) advances
`sent` and returns 1 after the first partial acceptance, while the loop
the claim describes (`streamReliableSendNextSpec`, which continues after a
partial acceptance) calls `stream_send` again, pops the buffer and returns
2 — so the claim is false of the code at this input. -/
theorem stream_reliable_send_next_partial_cex :
    streamReliableSendNext [.accepted 1, .accepted 1] 0 [⟨[9, 8], 0⟩] =
      ⟨.ok 1, [⟨[9, 8], 1⟩], [9]⟩ ∧
    streamReliableSendNextSpec [.accepted 1, .accepted 1] 0 [⟨[9, 8], 0⟩] =
      ⟨.ok 2, [], [9, 8]⟩ ∧
    streamReliableSendNext [.accepted 1, .accepted 1] 0 [⟨[9, 8], 0⟩] ≠
      streamReliableSendNextSpec [.accepted 1, .accepted 1] 0 [⟨[9, 8], 0⟩] := by
  decide

/-- Claim C1, amended.  One engine call of the drain loop started by
`stream_reliable_send`, on a nonempty queue with running total `total`:
on PARTIAL acceptance of `n < len - sent` bytes, `sent` advances by `n`
and the loop STOPS, returning the cumulative bytes moved; on full
acceptance (`n ≥ len - sent` bytes offered, `len - sent` accepted) the
front buffer is popped and the loop continues on the rest of the oracle;
on would-block (`Done`) the loop stops and returns the cumulative bytes
moved; on any other engine error the error is surfaced and the queue
retains its state. -/
theorem stream_reliable_send_next_cases (b : SendBuffer) (q : List SendBuffer)
    (rest : List StreamSendRes) (total n e : Nat) :
    (b.sent + n < b.data.length →
      streamReliableSendNext (.accepted n :: rest) total (b :: q) =
        ⟨.ok (total + n), ⟨b.data, b.sent + n⟩ :: q, (b.data.drop b.sent).take n⟩) ∧
    (b.data.length ≤ b.sent + n →
      streamReliableSendNext (.accepted n :: rest) total (b :: q) =
        let m := b.data.length - b.sent
        let out := streamReliableSendNext rest (total + m) q
        ⟨out.result, out.queue, b.remainingBytes ++ out.emitted⟩) ∧
    streamReliableSendNext (.done :: rest) total (b :: q) = ⟨.ok total, b :: q, []⟩ ∧
    streamReliableSendNext (.fatal e :: rest) total (b :: q) =
      ⟨.error e, b :: q, []⟩ := by
  refine ⟨?_, ?_, rfl, rfl⟩
  · intro h
    have hm : min n (b.data.length - b.sent) = n := by omega
    simp only [streamReliableSendNext, hm]
    rw [if_neg (by omega)]
  · intro h
    have hm : min n (b.data.length - b.sent) = b.data.length - b.sent := by omega
    simp only [streamReliableSendNext, hm]
    rw [if_pos (by omega)]
    have htake : (b.data.drop b.sent).take (b.data.length - b.sent) = b.data.drop b.sent := by
      apply List.take_of_length_le
      simp
    rw [htake]
    rfl

/-- Claim C1, witness for `stream_reliable_send_next_cases`: the partial and
would-block cases at a concrete queue. -/
theorem stream_reliable_send_next_cases_witness :
    streamReliableSendNext [.accepted 1] 0 [⟨[9, 8], 0⟩] =
      ⟨.ok 1, [⟨[9, 8], 1⟩], [9]⟩ ∧
    streamReliableSendNext [.done] 5 [⟨[9, 8], 1⟩] = ⟨.ok 5, [⟨[9, 8], 1⟩], []⟩ := by
  have h1 := (stream_reliable_send_next_cases ⟨[9, 8], 0⟩ [] [] 0 1 0).1 (by decide)
  have h2 := (stream_reliable_send_next_cases ⟨[9, 8], 1⟩ [] [] 5 1 0).2.2.1
  exact ⟨h1, h2⟩

/-- Claim C4.  Whenever a stream FIN is observed on the main stream — i.e. a
`stream_recv` pull returns `Ok((_, true))`, which happens in
`recv_data_process` (established, alive, drain succeeded, main stream
readable, read target not yet met) and in `stream_reliable_read` (read
target not yet met) — the manager calls `close(false, 1,
"Stream0Finished")` on the engine, and `recv_data_process` additionally
reports `Closing(id)` when that close succeeds. -/
theorem main_stream_fin_closes (c : Conn) (o : RecvOracle) (bytes rc : List Nat)
    (k : Nat)
    (h1 : c.establishedOnce = true)
    (h2 : o.recvRes = .ok k)
    (h3 : o.isClosed = false)
    (h4 : o.isDraining = false)
    (h5 : ∃ m, (streamReliableSendNext o.drainOracle 0 c.reliableSendQueue).result = .ok m)
    (h6 : o.readableNext = some MAIN_STREAM_ID)
    (h7 : c.recvCaptured < c.recvTarget)
    (h8 : o.streamRecvRes = .okRes bytes true)
    (h9 : o.closeRes = .ok ()) :
    (recvDataProcess c o).closeCalls = [(1, "Stream0Finished")] ∧
    (recvDataProcess c o).result = .ok (.Closing c.id) ∧
    (streamReliableRead c rc (.okRes bytes true) (.ok ())).closeCalls =
      [(1, "Stream0Finished")] := by
  obtain ⟨m, h5⟩ := h5
  have hmain : (recvDataProcess c o).closeCalls = [(1, "Stream0Finished")] ∧
      (recvDataProcess c o).result = .ok (.Closing c.id) := by
    unfold recvDataProcess
    rw [h2]
    simp only [h1, h3, h4, if_true, Bool.false_eq_true, if_false, h5, h6, h8, h9]
    rw [if_neg (show ¬ c.recvTarget ≤ c.recvCaptured by omega)]
    simp
  refine ⟨hmain.1, hmain.2, ?_⟩
  unfold streamReliableRead
  rw [if_neg (by omega)]
  simp

/-- Claim C4, witness for `main_stream_fin_closes` at a concrete connection
that is waiting for 2 more bytes when the FIN arrives. -/
theorem main_stream_fin_closes_witness :
    (recvDataProcess { readyConn with recvCaptured := 1 }
        { mainReadableOracle with streamRecvRes := .okRes [2] true }).result =
      .ok (.Closing 7) := by
  exact (main_stream_fin_closes { readyConn with recvCaptured := 1 }
    { mainReadableOracle with streamRecvRes := .okRes [2] true } [2] [] 100
    rfl rfl rfl rfl ⟨0, rfl⟩ rfl (by decide) rfl rfl).2.1

/-- Claim C2, counterexample.  `ReliableReadTarget(id)` is NOT emitted
exactly once per read-target cycle: on `readyConn` (target 3 already met,
no new read target set) with main-stream bytes still arriving
(`mainReadableOracle` reports the main stream readable), a
`recv_data_process` call emits `ReliableReadTarget(7)`, leaves the state
unchanged, and a second `recv_data_process` call — with no intervening
`set_next_read_target` — emits `ReliableReadTarget(7)` again. -/
theorem recv_data_process_repeats_read_target_cex :
    (recvDataProcess readyConn mainReadableOracle).result =
      .ok (.ReliableReadTarget 7) ∧
    (recvDataProcess (recvDataProcess readyConn mainReadableOracle).conn
        mainReadableOracle).result = .ok (.ReliableReadTarget 7) := by
  decide

/-- Claim C2, amended.  Once `recv_captured ≥ recv_target`, EVERY
`recv_data_process` call on an established, non-closed, non-draining
connection whose drain succeeds and which finds the main stream readable
emits `ReliableReadTarget(id)` — not exactly once: the emission repeats,
with `recv_captured`, `recv_target` and the receive buffer unchanged,
until the application sets a new (unmet) read target or the main stream
stops being readable. -/
theorem recv_data_process_read_target_emission (c : Conn) (o : RecvOracle) (k : Nat)
    (h1 : c.establishedOnce = true)
    (h2 : o.recvRes = .ok k)
    (h3 : o.isClosed = false)
    (h4 : o.isDraining = false)
    (h5 : ∃ m, (streamReliableSendNext o.drainOracle 0 c.reliableSendQueue).result = .ok m)
    (h6 : o.readableNext = some MAIN_STREAM_ID)
    (h7 : c.recvTarget ≤ c.recvCaptured) :
    (recvDataProcess c o).result = .ok (.ReliableReadTarget c.id) ∧
    (recvDataProcess c o).conn.recvCaptured = c.recvCaptured ∧
    (recvDataProcess c o).conn.recvTarget = c.recvTarget ∧
    (recvDataProcess c o).conn.recvData = c.recvData ∧
    (recvDataProcess c o).conn.establishedOnce = true := by
  obtain ⟨m, h5⟩ := h5
  unfold recvDataProcess
  rw [h2]
  simp only [h1, h3, h4, if_true, Bool.false_eq_true, if_false, h5, h6]
  rw [if_pos h7]
  simp

/-- Claim C2, witness for `recv_data_process_read_target_emission` at
`readyConn` / `mainReadableOracle`. -/
theorem recv_data_process_read_target_emission_witness :
    (recvDataProcess readyConn mainReadableOracle).result =
      .ok (.ReliableReadTarget 7) ∧
    (recvDataProcess readyConn mainReadableOracle).conn.recvCaptured = 3 := by
  have h := recv_data_process_read_target_emission readyConn mainReadableOracle 100
    rfl rfl rfl rfl ⟨0, rfl⟩ rfl (by decide)
  exact ⟨h.1, h.2.1⟩

/-- Claim C3, counterexample.  The detached buffer is NOT shrunk to
`recv_target`: on `detachConn` (capacity 4, `recv_target` 2, target met)
with a 0-byte caller slice, `stream_reliable_read` returns the detached
buffer still holding all 4 bytes `[5, 6, 7, 8]` — `Vec::shrink_to` only
lower-bounds the capacity and never truncates, and since the buffer's
length equals its capacity it is a no-op — so the returned buffer's
length is 4, not `recv_target = 2`. -/
theorem stream_reliable_read_no_shrink_cex :
    (streamReliableRead detachConn [] .done (.ok ())).result =
      .ok (none, some ⟨[5, 6, 7, 8], 4⟩) ∧
    detachConn.recvTarget = 2 ∧
    (RVec.mk [5, 6, 7, 8] 4).data.length ≠ detachConn.recvTarget := by
  decide

/-- Claim C3, amended.  Whenever `stream_reliable_read(out)` is called with
the read target met (`recv_captured ≥ recv_target`), on a buffer whose
length equals its capacity (the construction invariant) with
`recv_target ≤ capacity`: if `out.len ≥ recv_target` it copies exactly
the first `recv_target` bytes of the internal buffer into `out` and
returns `Some(recv_target)` with no owned buffer and no state change;
otherwise it swaps a freshly allocated, zero-filled replacement of
identical capacity into the connection and returns the detached buffer
UNCHANGED to the caller — the requested `shrink_to(recv_target)` is a
capacity lower bound and leaves both the contents and the capacity of the
detached buffer as they were, so the caller receives the full
capacity-length buffer whose first `recv_target` bytes are the record. -/
theorem stream_reliable_read_target_met (c : Conn) (rc : List Nat)
    (rr : StreamRecvRes) (cr : Except Nat Unit)
    (hmet : c.recvTarget ≤ c.recvCaptured)
    (hlen : c.recvData.data.length = c.recvData.cap)
    (htc : c.recvTarget ≤ c.recvData.cap) :
    (c.recvTarget ≤ rc.length →
      streamReliableRead c rc rr cr =
        ⟨.ok (some c.recvTarget, none), c, [],
          c.recvData.data.take c.recvTarget ++ rc.drop c.recvTarget⟩) ∧
    (rc.length < c.recvTarget →
      streamReliableRead c rc rr cr =
        ⟨.ok (none, some c.recvData),
          { c with recvData := ⟨List.replicate c.recvData.cap 0, c.recvData.cap⟩ },
          [], rc⟩) := by
  constructor
  · intro hout
    unfold streamReliableRead serveReadTarget
    rw [if_pos hmet, if_pos hout]
  · intro hout
    unfold streamReliableRead serveReadTarget
    rw [if_pos hmet, if_neg (by omega)]
    have hshrink : c.recvData.shrinkTo c.recvTarget = c.recvData := by
      unfold RVec.shrinkTo
      rcases hv : c.recvData with ⟨d, cap⟩
      rw [hv] at hlen htc
      simp at hlen htc ⊢
      omega
    have hfresh : (RVec.withCapacity c.recvData.cap).resizeZero c.recvData.cap =
        ⟨List.replicate c.recvData.cap 0, c.recvData.cap⟩ := by
      simp [RVec.withCapacity, RVec.resizeZero]
    simp only [hshrink, hfresh]

/-- Claim C3, witness for `stream_reliable_read_target_met`: the copy-out
branch with a 3-byte caller slice and the detach branch with an empty
caller slice, both on `detachConn`. -/
theorem stream_reliable_read_target_met_witness :
    streamReliableRead detachConn [0, 0, 0] .done (.ok ()) =
      ⟨.ok (some 2, none), detachConn, [], [5, 6, 0]⟩ ∧
    streamReliableRead detachConn [] .done (.ok ()) =
      ⟨.ok (none, some ⟨[5, 6, 7, 8], 4⟩),
        { detachConn with recvData := ⟨List.replicate 4 0, 4⟩ }, [], []⟩ := by
  have h1 := (stream_reliable_read_target_met detachConn [0, 0, 0] .done (.ok ())
    (by decide) (by decide) (by decide)).1 (by decide)
  have h2 := (stream_reliable_read_target_met detachConn [] .done (.ok ())
    (by decide) (by decide) (by decide)).2 (by decide)
  exact ⟨by simpa using h1, by simpa using h2⟩

/-- The receive invariant of the read-target machinery:
`recv_captured ≤ recv_target ≤ recv_buffer.capacity`, strengthened with
the structural fact (established at construction and maintained
thereafter) that the buffer's length equals its capacity. -/
def RecvInv (c : Conn) : Prop :=
  c.recvCaptured ≤ c.recvTarget ∧ c.recvTarget ≤ c.recvData.cap ∧
    c.recvData.data.length = c.recvData.cap

instance (c : Conn) : Decidable (RecvInv c) := by
  unfold RecvInv; infer_instance

/-- Helper `writeAt` preserves the buffer length when the write fits. -/
theorem writeAt_length (data : List Nat) (pos : Nat) (bytes : List Nat)
    (h : pos + bytes.length ≤ data.length) :
    (writeAt data pos bytes).length = data.length := by
  simp [writeAt]
  omega

/-- A main-stream pull preserves the receive invariant: the engine fills
at most `recv_target - recv_captured` bytes, so `recv_captured` stays at
most `recv_target` and the buffer length is unchanged. -/
theorem recvInv_pullMainStream (c : Conn) (bytes : List Nat) (h : RecvInv c) :
    RecvInv (pullMainStream c bytes) := by
  obtain ⟨h1, h2, h3⟩ := h
  unfold pullMainStream RecvInv
  refine ⟨by simp; omega, by simpa using h2, ?_⟩
  simp only
  rw [writeAt_length]
  · exact h3
  · simp
    omega

/-- Helper `serveReadTarget` preserves the receive invariant. -/
theorem recvInv_serveReadTarget (c : Conn) (rc : List Nat) (h : RecvInv c) :
    RecvInv (serveReadTarget c rc).conn := by
  obtain ⟨h1, h2, h3⟩ := h
  unfold serveReadTarget
  split
  · exact ⟨h1, h2, h3⟩
  · refine ⟨h1, by simpa [RVec.withCapacity, RVec.resizeZero] using h2, ?_⟩
    simp [RVec.withCapacity, RVec.resizeZero]

/-- Claim C5.  The invariant `recv_captured ≤ recv_target ≤
recv_buffer.capacity` (with the buffer preallocated to exactly its
capacity) holds after construction and is preserved by every operation of
the manager: `stream_reliable_next_read_target` (which clamps the request
to the buffer length and resets `recv_captured`), `recv_data_process`
(whose main-stream pulls advance `recv_captured` by at most the slice
length), `stream_reliable_read`, `stream_reliable_send`,
`handle_possible_timeout`, `send_ping_if_neccessary` and
`get_next_send_packet`. -/
theorem recv_invariant (id cap now n k : Nat) (scidData : List Nat) (c c0 : Conn)
    (o : RecvOracle) (rc : List Nat) (rr : StreamRecvRes) (cr ar : Except Nat Unit)
    (v : List Nat) (so : List StreamSendRes) (tmo : TimeoutOracle)
    (es : EngineSendRes) :
    (Connection.new id scidData cap now = some c0 → RecvInv c0) ∧
    (RecvInv c → RecvInv (streamReliableNextReadTarget c n)) ∧
    (RecvInv c → RecvInv (recvDataProcess c o).conn) ∧
    (RecvInv c → RecvInv (streamReliableRead c rc rr cr).conn) ∧
    (RecvInv c → RecvInv (streamReliableSend c v so).conn) ∧
    (RecvInv c → RecvInv (handlePossibleTimeout c tmo).conn) ∧
    (RecvInv c → RecvInv (sendPingIfNeccessary c k now ar).2) ∧
    (RecvInv c → RecvInv (getNextSendPacket c es).2) := by
  refine ⟨?_, ?_, ?_, ?_, ?_, ?_, ?_, ?_⟩
  · intro h
    unfold Connection.new at h
    rcases hs : scidFromSlice scidData with _ | scid
    · rw [hs] at h; exact absurd h (by simp)
    · rw [hs] at h
      simp only [Option.some.injEq] at h
      subst h
      refine ⟨Nat.le_refl 0, Nat.zero_le _, ?_⟩
      simp [RVec.withCapacity, RVec.resizeZero]
  · intro h
    obtain ⟨h1, h2, h3⟩ := h
    unfold streamReliableNextReadTarget
    refine ⟨Nat.zero_le _, ?_, h3⟩
    simp only
    split <;> omega
  · intro h
    have hq : ∀ q, RecvInv { c with reliableSendQueue := q } := by
      intro q; exact h
    simp only [recvDataProcess]
    repeat' split <;> try exact h
    all_goals exact recvInv_pullMainStream _ _ (hq _)
  · intro h
    simp only [streamReliableRead]
    repeat' split <;> try exact h
    all_goals try exact recvInv_serveReadTarget _ _ h
    all_goals first
      | exact recvInv_pullMainStream _ _ h
      | exact recvInv_serveReadTarget _ _ (recvInv_pullMainStream _ _ h)
  · intro h
    exact h
  · intro h
    unfold handlePossibleTimeout
    repeat' split <;> try exact h
  · intro h
    unfold sendPingIfNeccessary
    repeat' split <;> try exact h
  · intro h
    unfold getNextSendPacket
    repeat' split <;> try exact h

/-- Claim C5, witness for `recv_invariant`: the invariant after a concrete
construction and after a concrete clamped `set_next_read_target`. -/
theorem recv_invariant_witness :
    RecvInv { readyConn with nextTimeoutInstant := none } ∧
    RecvInv (streamReliableNextReadTarget readyConn 99) := by
  have h := recv_invariant 3 4 5 99 0 (List.replicate 20 9) readyConn readyConn
    mainReadableOracle [] .done (.ok ()) (.ok ()) [] [] ⟨0, none, false, false⟩
    (.doneRes none)
  exact ⟨by decide, h.2.1 (by decide)⟩

/-! Section: FIFO byte order of reliable sends (claim C6).

The only writer of the main stream in the manager is the drain loop
`stream_reliable_send_next`, invoked by `stream_reliable_send` (after
pushing onto the back of the queue) and by `recv_data_process`.  The wire
is modelled as the concatenation, in call order, of the bytes the engine
accepted (`stream_send` delivers accepted stream bytes in acceptance
order).  A run interleaves application sends with drain cycles. -/

theorem unsentBytes_cons (b : SendBuffer) (q : List SendBuffer) :
    unsentBytes (b :: q) = b.remainingBytes ++ unsentBytes q := rfl

theorem unsentBytes_append (q1 q2 : List SendBuffer) :
    unsentBytes (q1 ++ q2) = unsentBytes q1 ++ unsentBytes q2 := by
  induction q1 with
  | nil => rfl
  | cons b rest ih => simp [unsentBytes_cons, ih]

/-- Byte conservation of one drain-loop run: the bytes the engine accepted
followed by the bytes still queued equal the bytes that were queued before
the run — the drain emits exactly a prefix of the queued bytes, in queue
order, whatever the engine answers (including errors). -/
theorem streamReliableSendNext_conserves (oracle : List StreamSendRes)
    (total : Nat) (q : List SendBuffer) :
    (streamReliableSendNext oracle total q).emitted ++
      unsentBytes (streamReliableSendNext oracle total q).queue = unsentBytes q := by
  induction oracle generalizing total q with
  | nil => cases q <;> simp [streamReliableSendNext]
  | cons r rest ih =>
    cases q with
    | nil => simp [streamReliableSendNext]
    | cons b q2 =>
      cases r with
      | accepted n =>
        simp only [streamReliableSendNext]
        split
        · next hfull =>
          rw [List.append_assoc, ih]
          have htake : (b.data.drop b.sent).take (min n (b.data.length - b.sent)) =
              b.data.drop b.sent := by
            apply List.take_of_length_le
            simp
            omega
          rw [htake, unsentBytes_cons]
          rfl
        · next hpart =>
          rw [unsentBytes_cons, unsentBytes_cons]
          show (b.data.drop b.sent).take (min n (b.data.length - b.sent)) ++
            (b.data.drop (b.sent + min n (b.data.length - b.sent)) ++ unsentBytes q2) =
            b.data.drop b.sent ++ unsentBytes q2
          rw [← List.append_assoc, List.drop_take_append_drop]
      | done => simp [streamReliableSendNext]
      | fatal e => simp [streamReliableSendNext]

/-- An operation on the reliable send path: an application
`stream_reliable_send` of a payload (push to the back, then drain with the
given engine oracle), or a bare drain cycle as run by
`recv_data_process`. -/
inductive ReliableOp where
  | sendOp (v : List Nat) (oracle : List StreamSendRes)
  | drainOp (oracle : List StreamSendRes)
deriving Repr, DecidableEq

/-- The send-queue state together with the wire: all main-stream bytes the
engine has accepted so far, in order. -/
structure RunState where
  queue : List SendBuffer
  wire : List Nat
deriving Repr, DecidableEq

/-- Effect of one operation on the queue and the wire. -/
def stepOp (s : RunState) : ReliableOp → RunState
  | .sendOp v oracle =>
    let out := streamReliableSendNext oracle 0 (s.queue ++ [SendBuffer.mk v 0])
    ⟨out.queue, s.wire ++ out.emitted⟩
  | .drainOp oracle =>
    let out := streamReliableSendNext oracle 0 s.queue
    ⟨out.queue, s.wire ++ out.emitted⟩

/-- Run a sequence of operations. -/
def runOps (s : RunState) : List ReliableOp → RunState
  | [] => s
  | op :: rest => runOps (stepOp s op) rest

/-- The payloads enqueued by a sequence of operations, in order. -/
def payloadsOf : List ReliableOp → List Nat
  | [] => []
  | .sendOp v _ :: rest => v ++ payloadsOf rest
  | .drainOp _ :: rest => payloadsOf rest

theorem payloadsOf_map_drainOp (l : List (List StreamSendRes)) :
    payloadsOf (l.map ReliableOp.drainOp) = [] := by
  induction l with
  | nil => rfl
  | cons a rest ih => simpa [payloadsOf] using ih

/-- Conservation over a whole run: wire bytes plus still-queued bytes
equal the initial wire and queue plus every enqueued payload in enqueue
order. -/
theorem runOps_conserves (ops : List ReliableOp) (s : RunState) :
    (runOps s ops).wire ++ unsentBytes (runOps s ops).queue =
      s.wire ++ (unsentBytes s.queue ++ payloadsOf ops) := by
  induction ops generalizing s with
  | nil => simp [runOps, payloadsOf]
  | cons op rest ih =>
    have hstep : (stepOp s op).wire ++ unsentBytes (stepOp s op).queue =
        s.wire ++ (unsentBytes s.queue ++ payloadsOf [op]) := by
      cases op with
      | sendOp v oracle =>
        simp only [stepOp, payloadsOf]
        rw [List.append_assoc, streamReliableSendNext_conserves, unsentBytes_append]
        simp [unsentBytes_cons, unsentBytes, SendBuffer.remainingBytes]
      | drainOp oracle =>
        simp only [stepOp, payloadsOf]
        rw [List.append_assoc, streamReliableSendNext_conserves]
        simp
    show (runOps (stepOp s op) rest).wire ++
        unsentBytes (runOps (stepOp s op) rest).queue =
      s.wire ++ (unsentBytes s.queue ++ payloadsOf (op :: rest))
    rw [ih (stepOp s op), ← List.append_assoc, hstep]
    cases op <;> simp [payloadsOf]

/-- Operation list: `stream_reliable_send(v1)` then `stream_reliable_send(v2)` with drain
cycles interleaved before, between and after. -/
def interleavedSends (v1 : List Nat) (o1 : List StreamSendRes) (v2 : List Nat)
    (o2 : List StreamSendRes) (pre mid post : List (List StreamSendRes)) :
    List ReliableOp :=
  pre.map ReliableOp.drainOp ++
    ReliableOp.sendOp v1 o1 :: (mid.map ReliableOp.drainOp ++
      ReliableOp.sendOp v2 o2 :: post.map ReliableOp.drainOp)

/-- Claim C6.  Reliable main-stream sends are strictly FIFO and
byte-for-byte in order: for every pair of payloads `v1`, `v2` and any
interleaving of drain cycles (the other operations that touch the main
stream), starting from an empty queue, the wire bytes followed by the
still-queued bytes are exactly `v1 ++ v2` — so the wire always carries a
prefix of `v1 ++ v2`, with no reordering ever, and once the queue has
drained the peer has received exactly `v1 ++ v2`.  The last conjunct ties
the model's send step to `stream_reliable_send` on the connection
state. -/
theorem reliable_send_fifo (v1 v2 : List Nat) (o1 o2 : List StreamSendRes)
    (pre mid post : List (List StreamSendRes)) (c : Conn) (w : List Nat) :
    (runOps ⟨[], []⟩ (interleavedSends v1 o1 v2 o2 pre mid post)).wire ++
      unsentBytes (runOps ⟨[], []⟩ (interleavedSends v1 o1 v2 o2 pre mid post)).queue =
      v1 ++ v2 ∧
    ((runOps ⟨[], []⟩ (interleavedSends v1 o1 v2 o2 pre mid post)).queue = [] →
      (runOps ⟨[], []⟩ (interleavedSends v1 o1 v2 o2 pre mid post)).wire = v1 ++ v2) ∧
    (streamReliableSend c v1 o1).conn.reliableSendQueue =
      (stepOp ⟨c.reliableSendQueue, w⟩ (.sendOp v1 o1)).queue := by
  have hpay : payloadsOf (interleavedSends v1 o1 v2 o2 pre mid post) = v1 ++ v2 := by
    unfold interleavedSends
    induction pre with
    | nil =>
      simp only [List.map_nil, List.nil_append, payloadsOf]
      induction mid with
      | nil => simp [payloadsOf, payloadsOf_map_drainOp]
      | cons m ms ihm => simpa [payloadsOf] using ihm
    | cons p ps ihp => simpa [payloadsOf] using ihp
  have hmain := runOps_conserves (interleavedSends v1 o1 v2 o2 pre mid post) ⟨[], []⟩
  rw [hpay] at hmain
  simp only [unsentBytes, List.foldr_nil, List.nil_append] at hmain
  refine ⟨hmain, ?_, rfl⟩
  intro hq
  rw [hq] at hmain
  simpa [unsentBytes] using hmain

/-- Claim C6, witness for `reliable_send_fifo`: `v1 = [1, 2]` is accepted
partially (1 byte) at enqueue time, a later drain cycle moves the rest,
then `v2 = [3]` is accepted in full; the wire ends as `[1, 2, 3]`. -/
theorem reliable_send_fifo_witness :
    (runOps ⟨[], []⟩
        (interleavedSends [1, 2] [.accepted 1] [3] [.accepted 1] []
          [[.accepted 9]] [])).wire = [1, 2] ++ [3] := by
  exact (reliable_send_fifo [1, 2] [3] [.accepted 1] [.accepted 1] []
    [[.accepted 9]] [] readyConn []).2.1 (by decide)

end Swiftlet
